import Mathlib

/-!
Verification of the telegram-rss-bot subscription store and update engine.

The Go sources are shallowly embedded:
* the MySQL tables `feeds`, `updates`, `feedErrors` become lists of rows in a
  `Store`; `int64` ids and Unix-second timestamps become `Int`;
* implementation of `db.go` (the revision with `Prepare`, `AddFeedError`,
  `RecentFeedErrors`, `DropFeed`) and the update loop of `main.go` (the
  revision with `feedError` and the item-time fallback) are translated
  function by function;
* fallible SQL statements return `Except`; transient failures of individual
  statements are injected through an explicit `TxOracle`;
* the database schema itself is not part of the sources; the unique key on
  `updates (chatID, feedID)` and the cascade of `DROP`ping a feed are
  modelled from the spec where noted.
-/

namespace Rss

/-- A row of the `feeds` table: `(id, url unique, title, userID)`. -/
structure FeedRow where
  id : Int
  url : String
  title : String
  userID : Int
deriving DecidableEq, Repr

/-- A row of the `updates` table (a subscription):
`(chatID, feedID, userID, lastUpdate)`. -/
structure UpdateRow where
  chatID : Int
  feedID : Int
  userID : Int
  lastUpdate : Int
deriving DecidableEq, Repr

/-- A row of the `feedErrors` table: `(feedID, timestamp)`. -/
structure FeedErrorRow where
  feedID : Int
  timestamp : Int
deriving DecidableEq, Repr

/-- The database state.  `nextFeedID` models MySQL's auto-increment counter
backing `LastInsertId`. -/
structure Store where
  feeds : List FeedRow
  updates : List UpdateRow
  feedErrors : List FeedErrorRow
  nextFeedID : Int
deriving DecidableEq, Repr

/-- The `Feed` struct of `db.go`: `ID`, `Title`, `URL`. -/
structure Feed where
  id : Int
  title : String
  url : String
deriving DecidableEq, Repr

/-- The `Sub` struct of `db.go`: `ChatID`, `LastUpdate`. -/
structure Sub where
  chatID : Int
  lastUpdate : Int
deriving DecidableEq, Repr

/-- The three configured limits stored on `DB` (Go `int`).  A value of 0 is
meant to disable the corresponding check. -/
structure Config where
  MaxFeedsPerChat : Int
  MaxTotalFeedsByUser : Int
  MaxActiveFeedsByUser : Int
deriving DecidableEq, Repr

/-- Errors surfaced by the admission path.  The three quota errors are the
`ErrMax...` variables of `db.go`; `argMismatch` is the error `database/sql`
raises when the number of bound arguments differs from the number of `?`
placeholders; `dupKey` is a MySQL duplicate-key error; `storeErr` stands for
any other transient statement failure. -/
inductive AddError where
  | maxFeedsInChat
  | maxTotalFeedsByUser
  | maxActiveFeedsByUser
  | argMismatch
  | dupKey
  | storeErr
deriving DecidableEq, Repr

/-- Injected success/failure of the individual statements of
`AddFeedToChat`'s transaction. -/
structure TxOracle where
  beginOK : Bool
  checkOK : Bool
  feedInsertOK : Bool
  subInsertOK : Bool
  commitOK : Bool
deriving DecidableEq, Repr

/-- `SELECT COUNT(*) FROM updates WHERE chatID=?`. -/
def chatCount (st : Store) (chatID : Int) : Nat :=
  (st.updates.filter (fun r => r.chatID == chatID)).length

/-- `SELECT COUNT(*) FROM feeds WHERE userID=?`. -/
def userFeedCount (st : Store) (userID : Int) : Nat :=
  (st.feeds.filter (fun r => r.userID == userID)).length

/-- `SELECT COUNT(*) FROM updates WHERE userID=?`. -/
def userSubCount (st : Store) (userID : Int) : Nat :=
  (st.updates.filter (fun r => r.userID == userID)).length

/-- Number of `?` placeholders of the combined quota query built by
`DB.Prepare`: each sub-query contributes one placeholder unless its limit is
0, in which case the whole sub-query is replaced by the literal `"0"`. -/
def queryPlaceholders (cfg : Config) : Nat :=
  (if cfg.MaxFeedsPerChat == 0 then 0 else 1) +
    (if cfg.MaxTotalFeedsByUser == 0 then 0 else 1) +
    (if cfg.MaxActiveFeedsByUser == 0 then 0 else 1)

/-- The closure installed by `DB.Prepare` and run by `AddFeedToChat`.
The Go call site always binds three arguments `(chatID, userID, userID)`;
`database/sql` rejects the execution with an argument-count error whenever
the prepared query has fewer than three placeholders, which happens exactly
when some limit is 0.  Otherwise the single row scanned is
`(q1) + 2*(q2) + 4*(q3)` with `qi` evaluating `COUNT(*) >= limit` (or the
literal 0 for a zero limit), and the lowest set bit decides the error. -/
def checkAddConstraint (cfg : Config) (o : TxOracle) (st : Store)
    (userID chatID : Int) : Except AddError Unit :=
  if o.checkOK = false then .error .storeErr
  else if queryPlaceholders cfg ≠ 3 then .error .argMismatch
  else
    let b1 : Nat := if cfg.MaxFeedsPerChat == 0 then 0
      else if cfg.MaxFeedsPerChat ≤ (chatCount st chatID : Int) then 1 else 0
    let b2 : Nat := if cfg.MaxTotalFeedsByUser == 0 then 0
      else if cfg.MaxTotalFeedsByUser ≤ (userFeedCount st userID : Int) then 1 else 0
    let b3 : Nat := if cfg.MaxActiveFeedsByUser == 0 then 0
      else if cfg.MaxActiveFeedsByUser ≤ (userSubCount st userID : Int) then 1 else 0
    let res : Nat := b1 + 2 * b2 + 4 * b3
    if res &&& 1 ≠ 0 then .error .maxFeedsInChat
    else if res &&& 2 ≠ 0 then .error .maxTotalFeedsByUser
    else if res &&& 4 ≠ 0 then .error .maxActiveFeedsByUser
    else .ok ()

/-- The feed lookup-or-insert step of `AddFeedToChat`:
`SELECT id FROM feeds WHERE url=?`, and on no row,
`INSERT INTO feeds (url,title,userID) VALUES (?,?,?)` followed by
`LastInsertId` (which never fails for this driver). -/
def lookupOrInsertFeed (o : TxOracle) (userID : Int) (feed : Feed)
    (st : Store) : Except AddError (Int × Store) :=
  match st.feeds.find? (fun f => f.url == feed.url) with
  | some f => .ok (f.id, st)
  | none =>
    if o.feedInsertOK = false then .error .storeErr
    else .ok (st.nextFeedID,
      { st with
        feeds := st.feeds ++ [⟨st.nextFeedID, feed.url, feed.title, userID⟩],
        nextFeedID := st.nextFeedID + 1 })

/-- `DB.AddFeedToChat`: one transaction running the quota check, the feed
lookup-or-insert, and
`INSERT INTO updates (chatID, feedID, userID, lastUpdate) VALUES (?,?,?,now)`.
Every error path executes `tx.Rollback()` (the returned store is the
original one); only the final `tx.Commit()` publishes the staged rows.
The duplicate-key failure of the subscription insert is modelled from the
spec: the schema's unique key on `updates (chatID, feedID)` is declared
outside the Go sources. -/
def AddFeedToChat (cfg : Config) (o : TxOracle) (now : Int)
    (userID chatID : Int) (feed : Feed) (st : Store) :
    Except AddError Unit × Store :=
  if o.beginOK = false then (.error .storeErr, st)
  else
    match checkAddConstraint cfg o st userID chatID with
    | .error e => (.error e, st)
    | .ok _ =>
      match lookupOrInsertFeed o userID feed st with
      | .error e => (.error e, st)
      | .ok (feedID, st1) =>
        if o.subInsertOK = false then (.error .storeErr, st)
        else if st1.updates.any (fun r => r.chatID == chatID && r.feedID == feedID) then
          (.error .dupKey, st)
        else
          let st2 := { st1 with
            updates := st1.updates ++ [⟨chatID, feedID, userID, now⟩] }
          if o.commitOK = false then (.error .storeErr, st)
          else (.ok (), st2)

/-- `DB.FeedByURL` executes the SQL text `SELECT id,title WHERE url=?`.
The statement has no `FROM` clause, so MySQL cannot resolve the column
references `id`, `title`, `url` and rejects every execution; the scan
therefore always returns an error, whatever the store contains. -/
def FeedByURL (_st : Store) (_url : String) : Except AddError Feed :=
  .error .storeErr

/-- `DB.Subs`: `SELECT chatID, lastUpdate FROM updates WHERE feedID=? AND
updates.lastUpdate < ?` (the comparand is `latestUpdate.Unix()`). -/
def Subs (st : Store) (feedID : Int) (latestUpdate : Int) : List Sub :=
  (st.updates.filter
      (fun r => r.feedID == feedID && r.lastUpdate < latestUpdate)).map
    (fun r => ⟨r.chatID, r.lastUpdate⟩)

/-- `DB.UpdateSub`: `UPDATE updates SET lastUpdate=? WHERE chatID=? AND
feedID=?`. -/
def updateSub (st : Store) (chatID feedID : Int) (t : Int) : Store :=
  { st with
    updates := st.updates.map (fun r =>
      if r.chatID == chatID && r.feedID == feedID then
        { r with lastUpdate := t }
      else r) }

/-- `DB.Feeds`: `SELECT id,url FROM feeds` (the title is not selected and
stays at its zero value). -/
def Feeds (st : Store) : List Feed :=
  st.feeds.map (fun r => ⟨r.id, "", r.url⟩)

/-- `DB.RecentFeedErrors`: `SELECT COUNT(*) FROM feedErrors WHERE feedID=?
AND timestamp >= ?`. -/
def RecentFeedErrors (st : Store) (since : Int) (feedID : Int) : Nat :=
  (st.feedErrors.filter
      (fun e => e.feedID == feedID && since ≤ e.timestamp)).length

/-- `DB.AddFeedError`: `INSERT INTO feedErrors (feedID, timestamp)
VALUES (?, now)`.  Defined in `db.go` but never called by any revision of
the update loop. -/
def AddFeedError (st : Store) (now : Int) (feedID : Int) : Store :=
  { st with feedErrors := st.feedErrors ++ [⟨feedID, now⟩] }

/-- `DB.DropFeed` runs `DELETE FROM feeds WHERE id=?`.  The removal of the
feed's subscription rows is modelled from the spec: the cascading foreign
key of the `updates` table lives in the schema, outside the Go sources. -/
def dropFeed (st : Store) (id : Int) : Store :=
  { st with
    feeds := st.feeds.filter (fun f => !(f.id == id)),
    updates := st.updates.filter (fun r => !(r.feedID == id)) }

/-- A parsed feed item (`gofeed.Item`): the fields the update loop reads.
`publishedParsed` is `none` when the item has no parseable publish time
(a nil `*time.Time`); times are Unix seconds. -/
structure Item where
  title : String
  description : String
  link : String
  publishedParsed : Option Int
deriving DecidableEq, Repr

/-- A parsed feed document (`gofeed.Feed`): the fields the update loop
reads. -/
structure FeedDoc where
  updatedParsed : Option Int
  items : List Item
deriving DecidableEq, Repr

/-- Outcome of `fp.ParseURLWithContext` for one feed: a parsed document or a
fetch/parse error. -/
inductive FetchOutcome where
  | parsed (doc : FeedDoc)
  | parseErr
deriving DecidableEq, Repr

/-- A message handed to the `send` capability: destination chat and text. -/
structure Message where
  chatID : Int
  text : String
deriving DecidableEq, Repr

/-- The text sent for one item:
`item.Title + "\n" + item.Description + "\n\nLink: " + item.Link`. -/
def itemText (it : Item) : String :=
  it.title ++ "\n" ++ it.description ++ "\n\nLink: " ++ it.link

/-- The publish time the delivery loop dereferences (`*item.PublishedParsed`).
Every item reaching this point passed the `item.PublishedParsed != nil`
filter, so the default is never observed. -/
def pubKey (it : Item) : Int :=
  it.publishedParsed.getD 0

/-- The selection loop of `update`: keep the items whose publish time is
present and strictly after the subscriber's `lastUpdate`
(`item.PublishedParsed != nil && item.PublishedParsed.After(sub.LastUpdate)`). -/
def newItems (items : List Item) (lastUpdate : Int) : List Item :=
  items.filter (fun it =>
    match it.publishedParsed with
    | some p => lastUpdate < p
    | none => false)

/-- `sort.Slice(newItems, ...Before...)`: reorder the new items so that
publish times are non-decreasing.  Go's sort is an unspecified comparison
sort whose contract is only a permutation ordered by the comparator; we
model it by insertion sort under the reflexive closure of the
comparator. -/
def sortNewItems (l : List Item) : List Item :=
  List.insertionSort (fun a b => pubKey a ≤ pubKey b) l

/-- The `(previous, new)` pairs of stored `lastUpdate` values an `UpdateSub`
call writes: one pair per row matching `(chatID, feedID)`.  This instruments
the store update for the monotonicity statement and does not influence the
store or the messages. -/
def subWrites (st : Store) (chatID feedID : Int) (t : Int) :
    List (Int × Int) :=
  (st.updates.filter (fun r => r.chatID == chatID && r.feedID == feedID)).map
    (fun r => (r.lastUpdate, t))

/-- One iteration of the delivery loop of `update`: send the item's message,
then `db.UpdateSub(sub.ChatID, info.ID, *item.PublishedParsed)`.  The
accumulator carries the store, the messages sent so far, and the
instrumented write pairs. -/
def deliverStep (chatID feedID : Int)
    (acc : Store × List Message × List (Int × Int)) (it : Item) :
    Store × List Message × List (Int × Int) :=
  (updateSub acc.1 chatID feedID (pubKey it),
   acc.2.1 ++ [⟨chatID, itemText it⟩],
   acc.2.2 ++ subWrites acc.1 chatID feedID (pubKey it))

/-- The per-subscriber body of `update`: select the new items, skip the
subscriber if there are none, otherwise sort them and deliver each in
turn. -/
def processSub (feedID : Int) (items : List Item) (sub : Sub) (st : Store) :
    Store × List Message × List (Int × Int) :=
  if (newItems items sub.lastUpdate).isEmpty then (st, [], [])
  else (sortNewItems (newItems items sub.lastUpdate)).foldl
    (deliverStep sub.chatID feedID) (st, [], [])

/-- Folding one subscriber into the per-feed loop. -/
def subStep (feedID : Int) (items : List Item)
    (acc : Store × List Message × List (Int × Int)) (sub : Sub) :
    Store × List Message × List (Int × Int) :=
  let r := processSub feedID items sub acc.1
  (r.1, acc.2.1 ++ r.2.1, acc.2.2 ++ r.2.2)

/-- The removal notice `feedError` sends to each formerly subscribed chat. -/
def removalText (feed : Feed) : String :=
  "Your feed \"" ++ feed.title ++
    "\" was removed because it could not be loaded multiple times."

/-- `feedError` of `main.go`, invoked after a fetch failure: count this
feed's recorded errors of the last 12 hours; if at least 9, enumerate the
subscribers with `db.Subs(feed.ID, &firstSecond)` (`firstSecond` is
`time.Unix(0, 0)`), drop the feed, and send each collected chat a removal
notice.  Note that nothing in the sources ever calls `AddFeedError`, so the
`feedErrors` table is never written here or anywhere else. -/
def feedError (now : Int) (st : Store) (feed : Feed) :
    Store × List Message :=
  if 9 ≤ RecentFeedErrors st (now - 12 * 3600) feed.id then
    (dropFeed st feed.id,
      ((Subs st feed.id 0).map (fun s => s.chatID)).map
        (fun c => ⟨c, removalText feed⟩))
  else (st, [])

/-- Result of the freshness-timestamp computation at the top of the per-feed
loop: a usable timestamp or the treat-as-fetch-failure outcome. -/
inductive FreshResult where
  | fresh (t : Int)
  | failure
deriving DecidableEq, Repr

/-- The fallback scan of `update` when `feed.UpdatedParsed` is nil: starting
from the pointer `&firstSecond` (epoch), replace the current value by any
item publish time strictly after it.  The boolean records whether the
pointer was ever reassigned (the code then compares `updated ==
&firstSecond`, a pointer identity test). -/
def fallbackUpdated (items : List Item) : Int × Bool :=
  items.foldl (fun st it =>
    match it.publishedParsed with
    | some p => if st.1 < p then (p, true) else st
    | none => st) (0, false)

/-- The freshness timestamp `update` settles on: the feed-level
`UpdatedParsed` when present, otherwise the fallback scan; when the pointer
was never reassigned the feed is treated as a fetch failure. -/
def freshness (doc : FeedDoc) : FreshResult :=
  match doc.updatedParsed with
  | some t => .fresh t
  | none =>
    let r := fallbackUpdated doc.items
    if r.2 then .fresh r.1 else .failure

/-- The freshness rule as the claim states it: prefer the feed-level update
time; otherwise the maximum publish time over the document's items; failure
only when no item has a publish time at all.  This follows the claim's
words, for comparison with `freshness` above. -/
def specFreshness (doc : FeedDoc) : FreshResult :=
  match doc.updatedParsed with
  | some t => .fresh t
  | none =>
    match (doc.items.filterMap (fun it => it.publishedParsed)).max? with
    | some m => .fresh m
    | none => .failure

/-- The maximum publish time found in a document, starting from the epoch:
the value the fallback scan settles on whenever it reassigns the pointer. -/
def maxKey (items : List Item) : Int :=
  items.foldl (fun acc it =>
    match it.publishedParsed with
    | some p => max acc p
    | none => acc) 0

/-- The per-feed body of `update`: on a fetch/parse error run `feedError`;
on success compute the freshness timestamp, treating its absence as a fetch
failure; otherwise query the subscribers behind that timestamp and run the
delivery loop for each. -/
def processFeed (now : Int) (st : Store) (feed : Feed)
    (outcome : FetchOutcome) : Store × List Message × List (Int × Int) :=
  match outcome with
  | .parseErr =>
    let r := feedError now st feed
    (r.1, r.2, [])
  | .parsed doc =>
    match freshness doc with
    | .failure =>
      let r := feedError now st feed
      (r.1, r.2, [])
    | .fresh t =>
      (Subs st feed.id t).foldl (subStep feed.id doc.items) (st, [], [])

/-- Folding one feed into the pass. -/
def feedStep (now : Int) (fetch : Feed → FetchOutcome)
    (acc : Store × List Message × List (Int × Int)) (feed : Feed) :
    Store × List Message × List (Int × Int) :=
  let r := processFeed now acc.1 feed (fetch feed)
  (r.1, acc.2.1 ++ r.2.1, acc.2.2 ++ r.2.2)

/-- One pass of `update`: stream the feed list (the result set is a snapshot
taken when the query starts) and process each feed in order.  `fetch` is the
external fetch-and-parse capability. -/
def updatePass (now : Int) (fetch : Feed → FetchOutcome) (st : Store) :
    Store × List Message × List (Int × Int) :=
  (Feeds st).foldl (feedStep now fetch) (st, [], [])

/-- A sequence of scheduled passes (`periodicUpdate`), each with its own
clock value and fetch outcomes; the messages and instrumented write pairs of
all passes are concatenated. -/
def runPasses (ps : List (Int × (Feed → FetchOutcome))) (st : Store) :
    Store × List Message × List (Int × Int) :=
  ps.foldl (fun acc p =>
    let r := updatePass p.1 p.2 acc.1
    (r.1, acc.2.1 ++ r.2.1, acc.2.2 ++ r.2.2)) (st, [], [])

/-- The `(chatID, feedID)` key of each subscription row. -/
def pairsOf (st : Store) : List (Int × Int) :=
  st.updates.map (fun r => (r.chatID, r.feedID))

/-- The stored `lastUpdate` values of the rows with the given key. -/
def rowVals (st : Store) (chatID feedID : Int) : List Int :=
  (st.updates.filter
      (fun r => r.chatID == chatID && r.feedID == feedID)).map
    (fun r => r.lastUpdate)

/-- Admission calls applied in sequence, each with its own arguments and
statement outcomes. -/
structure CallParams where
  o : TxOracle
  now : Int
  userID : Int
  chatID : Int
  feed : Feed
deriving Repr

/-- Run a sequence of `AddFeedToChat` calls against a store. -/
def applyCalls (cfg : Config) (calls : List CallParams) (st : Store) :
    Store :=
  calls.foldl
    (fun st p => (AddFeedToChat cfg p.o p.now p.userID p.chatID p.feed st).2)
    st

/-- The lookup-or-insert step only fails with a transient store error. -/
theorem lookupOrInsertFeed_error (o : TxOracle) (userID : Int) (feed : Feed)
    (st : Store) (e : AddError)
    (h : lookupOrInsertFeed o userID feed st = .error e) : e = .storeErr := by
  unfold lookupOrInsertFeed at h
  split at h
  · exact absurd h (by simp)
  · split at h
    · cases h; rfl
    · exact absurd h (by simp)

/-- Characterization of a successful lookup-or-insert: the subscription and
error tables are untouched, and either the URL was present and its id is
returned with the feed table unchanged, or it was absent and a fresh row was
appended. -/
theorem lookupOrInsertFeed_ok (o : TxOracle) (userID : Int) (feed : Feed)
    (st : Store) (fid : Int) (st1 : Store)
    (h : lookupOrInsertFeed o userID feed st = .ok (fid, st1)) :
    st1.updates = st.updates ∧ st1.feedErrors = st.feedErrors ∧
      ((∃ f ∈ st.feeds, f.url = feed.url ∧ f.id = fid ∧ st1 = st) ∨
        ((∀ f ∈ st.feeds, f.url ≠ feed.url) ∧ fid = st.nextFeedID ∧
          st1 = { st with
            feeds := st.feeds ++ [⟨st.nextFeedID, feed.url, feed.title, userID⟩],
            nextFeedID := st.nextFeedID + 1 })) := by
  unfold lookupOrInsertFeed at h
  split at h
  next f hfind =>
    cases h
    refine ⟨rfl, rfl, .inl ⟨f, List.mem_of_find?_eq_some hfind, ?_, rfl, rfl⟩⟩
    have := List.find?_some hfind
    simpa [beq_iff_eq] using this
  next hfind =>
    split at h
    · exact absurd h (by simp)
    · cases h
      refine ⟨rfl, rfl, .inr ⟨?_, rfl, rfl⟩⟩
      intro f hf
      have := List.find?_eq_none.mp hfind f hf
      simpa [beq_iff_eq] using this

/-- Full case analysis of `AddFeedToChat`: every error leaves the store
untouched, and success appends exactly the one new subscription row (whose
key was absent) and, when the URL was new, exactly the one new feed row. -/
theorem addFeedToChat_cases (cfg : Config) (o : TxOracle)
    (now userID chatID : Int) (feed : Feed) (st : Store) :
    ((AddFeedToChat cfg o now userID chatID feed st).1 ≠ .ok () →
      (AddFeedToChat cfg o now userID chatID feed st).2 = st) ∧
    ((AddFeedToChat cfg o now userID chatID feed st).1 = .ok () →
      ∃ feedID,
        (AddFeedToChat cfg o now userID chatID feed st).2.updates =
          st.updates ++ [⟨chatID, feedID, userID, now⟩] ∧
        (st.updates.any
            (fun r => r.chatID == chatID && r.feedID == feedID)) = false ∧
        (AddFeedToChat cfg o now userID chatID feed st).2.feedErrors =
          st.feedErrors ∧
        ((∃ f ∈ st.feeds, f.url = feed.url ∧ f.id = feedID ∧
            (AddFeedToChat cfg o now userID chatID feed st).2.feeds =
              st.feeds) ∨
          ((∀ f ∈ st.feeds, f.url ≠ feed.url) ∧ feedID = st.nextFeedID ∧
            (AddFeedToChat cfg o now userID chatID feed st).2.feeds =
              st.feeds ++
                [⟨st.nextFeedID, feed.url, feed.title, userID⟩]))) := by
  unfold AddFeedToChat
  split
  · simp
  · split
    · simp
    · rcases hlook : lookupOrInsertFeed o userID feed st with e | ⟨fid, st1⟩
      · simp [hlook]
      · obtain ⟨hu, he, hfs⟩ := lookupOrInsertFeed_ok o userID feed st fid st1 hlook
        simp only [hlook]
        split
        · simp
        · split
          next hany => simp
          next hany =>
            split
            · simp
            · refine ⟨by simp, fun _ => ⟨fid, ?_, ?_, ?_, ?_⟩⟩
              · simp [hu]
              · rw [← hu]
                exact Bool.not_eq_true _ ▸ hany
              · simp [he]
              · rcases hfs with ⟨f, hf, hurl, hid, rfl⟩ | ⟨habs, hid, rfl⟩
                · exact .inl ⟨f, hf, hurl, hid, by simp⟩
                · exact .inr ⟨habs, hid, by simp⟩

/-- C2: `AddFeedToChat` is atomic.  Whatever step fails — the quota check,
the feed insert, the subscription insert, or the commit — the call returns
an error and the resulting store is exactly the original one; a call
returning success leaves the original store plus the new subscription row
and, only when the URL was previously unknown, one new feed row. -/
theorem addFeedToChat_atomic (cfg : Config) (o : TxOracle)
    (now userID chatID : Int) (feed : Feed) (st : Store) :
    ((AddFeedToChat cfg o now userID chatID feed st).1 ≠ .ok () →
      (AddFeedToChat cfg o now userID chatID feed st).2 = st) ∧
    ((AddFeedToChat cfg o now userID chatID feed st).1 = .ok () →
      ∃ feedID,
        (AddFeedToChat cfg o now userID chatID feed st).2.updates =
          st.updates ++ [⟨chatID, feedID, userID, now⟩] ∧
        (AddFeedToChat cfg o now userID chatID feed st).2.feedErrors =
          st.feedErrors ∧
        ((∃ f ∈ st.feeds, f.url = feed.url ∧ f.id = feedID ∧
            (AddFeedToChat cfg o now userID chatID feed st).2.feeds =
              st.feeds) ∨
          ((∀ f ∈ st.feeds, f.url ≠ feed.url) ∧ feedID = st.nextFeedID ∧
            (AddFeedToChat cfg o now userID chatID feed st).2.feeds =
              st.feeds ++
                [⟨st.nextFeedID, feed.url, feed.title, userID⟩]))) := by
  obtain ⟨h1, h2⟩ := addFeedToChat_cases cfg o now userID chatID feed st
  refine ⟨h1, fun hok => ?_⟩
  obtain ⟨fid, hu, _, he, hfs⟩ := h2 hok
  exact ⟨fid, hu, he, hfs⟩

/-- A failed call (here: the transaction cannot even begin) leaves the store
exactly as it was. -/
theorem addFeedToChat_atomic_witness :
    (AddFeedToChat ⟨10, 10, 10⟩ ⟨false, true, true, true, true⟩ 50 7 5
        ⟨0, "Example", "//example.org/rss"⟩ (Store.mk [] [] [] 1)).2 =
      Store.mk [] [] [] 1 :=
  (addFeedToChat_atomic ⟨10, 10, 10⟩ ⟨false, true, true, true, true⟩ 50 7 5
      ⟨0, "Example", "//example.org/rss"⟩ (Store.mk [] [] [] 1)).1
    (fun h => nomatch h)

/-- Unfolding one call of a call sequence. -/
theorem applyCalls_cons (cfg : Config) (p : CallParams)
    (rest : List CallParams) (st : Store) :
    applyCalls cfg (p :: rest) st =
      applyCalls cfg rest
        (AddFeedToChat cfg p.o p.now p.userID p.chatID p.feed st).2 := rfl

/-- One `AddFeedToChat` call preserves distinctness of the subscription
keys. -/
theorem addFeedToChat_pairsNodup (cfg : Config) (o : TxOracle)
    (now userID chatID : Int) (feed : Feed) (st : Store)
    (h : (pairsOf st).Nodup) :
    (pairsOf (AddFeedToChat cfg o now userID chatID feed st).2).Nodup := by
  obtain ⟨herr, hok⟩ := addFeedToChat_cases cfg o now userID chatID feed st
  by_cases hres : (AddFeedToChat cfg o now userID chatID feed st).1 = .ok ()
  · obtain ⟨fid, hu, hany, -, -⟩ := hok hres
    have habs : (chatID, fid) ∉ pairsOf st := by
      intro hmem
      obtain ⟨r, hr, hpair⟩ := List.mem_map.mp hmem
      have := List.any_eq_false.mp hany r hr
      simp only [Bool.and_eq_true, beq_iff_eq, not_and] at this
      exact this (congrArg Prod.fst hpair) (congrArg Prod.snd hpair)
    have hpa : pairsOf (AddFeedToChat cfg o now userID chatID feed st).2 =
        pairsOf st ++ [(chatID, fid)] := by
      simp [pairsOf, hu]
    rw [hpa]
    simp only [List.nodup_append, List.nodup_cons, List.not_mem_nil,
      not_false_iff, List.nodup_nil, and_true, true_and]
    refine ⟨h, ?_⟩
    intro a ha hb
    simp only [List.mem_singleton] at hb
    exact habs (hb ▸ ha)
  · rw [herr hres]
    exact h

/-- C8: the `(chatID, feedID)` keys of the subscription rows stay pairwise
distinct across any sequence of `AddFeedToChat` calls: a successful call
appends a key the duplicate-key check (the schema's unique key, modelled
from the spec) proved absent, and a failed call changes nothing. -/
theorem subscription_pairs_unique (cfg : Config) (calls : List CallParams)
    (st : Store) (h : (pairsOf st).Nodup) :
    (pairsOf (applyCalls cfg calls st)).Nodup := by
  induction calls generalizing st with
  | nil => exact h
  | cons p rest ih =>
    rw [applyCalls_cons]
    exact ih _ (addFeedToChat_pairsNodup cfg p.o p.now p.userID p.chatID
      p.feed st h)

/-- A sequence of two calls that both try to subscribe the same chat to the
same URL ends with a single subscription row. -/
theorem subscription_pairs_unique_witness :
    (pairsOf (applyCalls ⟨10, 10, 10⟩
        [⟨⟨true, true, true, true, true⟩, 50, 7, 5,
            ⟨0, "Example", "//example.org/rss"⟩⟩,
          ⟨⟨true, true, true, true, true⟩, 60, 7, 5,
            ⟨0, "Example", "//example.org/rss"⟩⟩]
        (Store.mk [] [] [] 1))).Nodup :=
  subscription_pairs_unique ⟨10, 10, 10⟩
    [⟨⟨true, true, true, true, true⟩, 50, 7, 5,
        ⟨0, "Example", "//example.org/rss"⟩⟩,
      ⟨⟨true, true, true, true, true⟩, 60, 7, 5,
        ⟨0, "Example", "//example.org/rss"⟩⟩]
    (Store.mk [] [] [] 1) (by decide)

/-- With all three limits nonzero the combined query keeps its three
placeholders and the bit tests reduce to the three count comparisons, tried
in order. -/
theorem checkAddConstraint_spec (cfg : Config) (o : TxOracle) (st : Store)
    (userID chatID : Int) (h1 : cfg.MaxFeedsPerChat ≠ 0)
    (h2 : cfg.MaxTotalFeedsByUser ≠ 0) (h3 : cfg.MaxActiveFeedsByUser ≠ 0)
    (hc : o.checkOK = true) :
    checkAddConstraint cfg o st userID chatID =
      if cfg.MaxFeedsPerChat ≤ (chatCount st chatID : Int) then
        .error .maxFeedsInChat
      else if cfg.MaxTotalFeedsByUser ≤ (userFeedCount st userID : Int) then
        .error .maxTotalFeedsByUser
      else if cfg.MaxActiveFeedsByUser ≤ (userSubCount st userID : Int) then
        .error .maxActiveFeedsByUser
      else .ok () := by
  have hq : queryPlaceholders cfg = 3 := by
    simp [queryPlaceholders, beq_iff_eq, h1, h2, h3]
  unfold checkAddConstraint
  rw [hc, hq]
  simp only [Bool.true_eq_false, if_false, ne_eq, not_true_eq_false,
    if_neg (fun h : ¬(3 = 3) => h rfl)]
  by_cases hA : cfg.MaxFeedsPerChat ≤ (chatCount st chatID : Int) <;>
    by_cases hB : cfg.MaxTotalFeedsByUser ≤ (userFeedCount st userID : Int) <;>
      by_cases hC :
          cfg.MaxActiveFeedsByUser ≤ (userSubCount st userID : Int) <;>
        simp [beq_iff_eq, h1, h2, h3, hA, hB, hC] <;> decide

/-- C1: with all limits nonzero, when a quota predicate holds at the
transaction snapshot the call inserts nothing and returns the error of the
highest-priority failing constraint — chat limit before owner-total before
owner-active — and when none holds, no quota error is returned. -/
theorem addFeedToChat_quota_priority (cfg : Config) (o : TxOracle)
    (now userID chatID : Int) (feed : Feed) (st : Store)
    (h1 : cfg.MaxFeedsPerChat ≠ 0) (h2 : cfg.MaxTotalFeedsByUser ≠ 0)
    (h3 : cfg.MaxActiveFeedsByUser ≠ 0) (hb : o.beginOK = true)
    (hc : o.checkOK = true) :
    ((cfg.MaxFeedsPerChat ≤ (chatCount st chatID : Int)) →
      AddFeedToChat cfg o now userID chatID feed st =
        (.error .maxFeedsInChat, st)) ∧
    (¬(cfg.MaxFeedsPerChat ≤ (chatCount st chatID : Int)) →
      (cfg.MaxTotalFeedsByUser ≤ (userFeedCount st userID : Int)) →
      AddFeedToChat cfg o now userID chatID feed st =
        (.error .maxTotalFeedsByUser, st)) ∧
    (¬(cfg.MaxFeedsPerChat ≤ (chatCount st chatID : Int)) →
      ¬(cfg.MaxTotalFeedsByUser ≤ (userFeedCount st userID : Int)) →
      (cfg.MaxActiveFeedsByUser ≤ (userSubCount st userID : Int)) →
      AddFeedToChat cfg o now userID chatID feed st =
        (.error .maxActiveFeedsByUser, st)) ∧
    (¬(cfg.MaxFeedsPerChat ≤ (chatCount st chatID : Int)) →
      ¬(cfg.MaxTotalFeedsByUser ≤ (userFeedCount st userID : Int)) →
      ¬(cfg.MaxActiveFeedsByUser ≤ (userSubCount st userID : Int)) →
      (AddFeedToChat cfg o now userID chatID feed st).1 ≠
          .error .maxFeedsInChat ∧
        (AddFeedToChat cfg o now userID chatID feed st).1 ≠
          .error .maxTotalFeedsByUser ∧
        (AddFeedToChat cfg o now userID chatID feed st).1 ≠
          .error .maxActiveFeedsByUser) := by
  have hch := checkAddConstraint_spec cfg o st userID chatID h1 h2 h3 hc
  refine ⟨fun hA => ?_, fun hA hB => ?_, fun hA hB hC => ?_,
    fun hA hB hC => ?_⟩
  · unfold AddFeedToChat
    rw [hb, hch]
    simp [hA]
  · unfold AddFeedToChat
    rw [hb, hch]
    simp [hA, hB]
  · unfold AddFeedToChat
    rw [hb, hch]
    simp [hA, hB, hC]
  · unfold AddFeedToChat
    rw [hb, hch]
    simp only [Bool.true_eq_false, if_false, if_neg hA, if_neg hB, if_neg hC]
    rcases hlook : lookupOrInsertFeed o userID feed st with e | ⟨fid, st1⟩
    · have := lookupOrInsertFeed_error o userID feed st e hlook
      subst this
      simp
    · simp only []
      split
      · simp
      · split
        · simp
        · split
          · simp
          · simp

/-- Concrete instance: a chat already at the limit is declined with the
chat-limit error and nothing is inserted. -/
theorem addFeedToChat_quota_priority_witness :
    AddFeedToChat ⟨1, 5, 5⟩ ⟨true, true, true, true, true⟩ 50 7 5
        ⟨0, "Example", "//example.org/rss"⟩
        (Store.mk [] [⟨5, 1, 7, 10⟩] [] 2) =
      (.error .maxFeedsInChat, Store.mk [] [⟨5, 1, 7, 10⟩] [] 2) :=
  (addFeedToChat_quota_priority ⟨1, 5, 5⟩ ⟨true, true, true, true, true⟩ 50 7
      5 ⟨0, "Example", "//example.org/rss"⟩
      (Store.mk [] [⟨5, 1, 7, 10⟩] [] 2) (by decide) (by decide) (by decide)
      rfl rfl).1 (by decide)

/-- C9: `FeedByURL` is claimed to return the stored feed when a feed with
the given URL exists and a not-found result only when none does.  The SQL
text `SELECT id,title WHERE url=?` has no `FROM` clause, so the statement
fails on every execution: here the store does contain a feed with the
requested URL, yet `FeedByURL` returns an error. -/
theorem feedByURL_fails_on_present_url :
    (∃ f ∈ (Store.mk [⟨1, "//example.org/rss", "Example", 7⟩] [] [] 2).feeds,
        f.url = "//example.org/rss") ∧
    FeedByURL (Store.mk [⟨1, "//example.org/rss", "Example", 7⟩] [] [] 2)
        "//example.org/rss" = .error .storeErr := by
  exact ⟨⟨⟨1, "//example.org/rss", "Example", 7⟩, by decide, rfl⟩, rfl⟩

/-- C10: with `MaxFeedsPerChat = 0` the combined quota query keeps only two
placeholders while the call site still binds three arguments, so every
`AddFeedToChat` call fails with the driver's argument-count error even on an
empty store — no admission ever succeeds, instead of the dimension being
unlimited. -/
theorem zero_limit_breaks_admission :
    queryPlaceholders ⟨0, 10, 10⟩ = 2 ∧
    AddFeedToChat ⟨0, 10, 10⟩ ⟨true, true, true, true, true⟩ 1000 7 5
        ⟨0, "Example", "//example.org/rss"⟩ (Store.mk [] [] [] 1) =
      (.error .argMismatch, Store.mk [] [] [] 1) := by
  exact ⟨rfl, rfl⟩

/-- C4: the quarantine never fires.  Nine consecutive passes in which the
only feed fails to fetch leave the store (including the `feedErrors` table)
exactly as it was and send no message, because no revision of the update
loop ever calls `AddFeedError`; and even with nine recent failures already
recorded, `feedError` drops the feed but notifies nobody, because
`Subs(feedID, firstSecond)` selects rows with `lastUpdate < 0`, which no
real subscription satisfies. -/
theorem quarantine_never_triggers :
    runPasses (List.replicate 9 (2000, fun _ => FetchOutcome.parseErr))
        (Store.mk [⟨1, "//example.org/rss", "Example", 7⟩]
          [⟨5, 1, 7, 100⟩] [] 2) =
      (Store.mk [⟨1, "//example.org/rss", "Example", 7⟩]
        [⟨5, 1, 7, 100⟩] [] 2, [], []) ∧
    (feedError 2000
        (Store.mk [⟨1, "//example.org/rss", "Example", 7⟩] [⟨5, 1, 7, 100⟩]
          (List.replicate 9 ⟨1, 1999⟩) 2)
        ⟨1, "Example", "//example.org/rss"⟩) =
      (Store.mk [] [] (List.replicate 9 ⟨1, 1999⟩) 2, []) := by
  exact ⟨rfl, rfl⟩

/-- C6: `Subs feedID notAfter` yields exactly the subscriptions of that feed
whose stored `lastUpdate` is strictly below `notAfter`: an element of the
result corresponds precisely to such a row, so no row of another feed and no
row at or past `notAfter` is ever produced. -/
theorem subs_exactly_behind_rows :
    ∀ (st : Store) (feedID latestUpdate : Int) (s : Sub),
      s ∈ Subs st feedID latestUpdate ↔
        ∃ r ∈ st.updates, r.feedID = feedID ∧ r.lastUpdate < latestUpdate ∧
          s = ⟨r.chatID, r.lastUpdate⟩ := by
  intro st feedID latestUpdate s
  simp only [Subs, List.mem_map, List.mem_filter, Bool.and_eq_true,
    beq_iff_eq, decide_eq_true_eq]
  constructor
  · rintro ⟨r, ⟨hr, hf, hl⟩, rfl⟩
    exact ⟨r, hr, hf, hl, rfl⟩
  · rintro ⟨r, hr, hf, hl, rfl⟩
    exact ⟨r, ⟨hr, hf, hl⟩, rfl⟩

/-- Concrete instance of the `Subs` characterization. -/
theorem subs_exactly_behind_rows_witness :
    (Sub.mk 5 3) ∈ Subs (Store.mk [] [⟨5, 1, 7, 3⟩] [] 2) 1 10 :=
  (subs_exactly_behind_rows (Store.mk [] [⟨5, 1, 7, 3⟩] [] 2) 1 10 ⟨5, 3⟩).mpr
    ⟨⟨5, 1, 7, 3⟩, by decide, rfl, by decide, rfl⟩

/-- The running value of the fallback scan is the maximum of the start value
and the publish times seen. -/
theorem fallback_foldl_fst (items : List Item) :
    ∀ (a : Int) (tch : Bool),
      (items.foldl (fun st it =>
        match it.publishedParsed with
        | some p => if st.1 < p then (p, true) else st
        | none => st) (a, tch)).1 =
      items.foldl (fun acc it =>
        match it.publishedParsed with
        | some p => max acc p
        | none => acc) a := by
  induction items with
  | nil => intro a tch; rfl
  | cons it rest ih =>
    intro a tch
    cases h : it.publishedParsed with
    | none => simp only [List.foldl_cons, h]; exact ih a tch
    | some p =>
      simp only [List.foldl_cons, h]
      by_cases hlt : a < p
      · rw [if_pos hlt, max_eq_right (le_of_lt hlt)]
        exact ih p true
      · rw [if_neg hlt, max_eq_left (le_of_not_lt hlt)]
        exact ih a tch

/-- The fallback scan reassigns the pointer exactly when some item's publish
time exceeds the start value. -/
theorem fallback_foldl_snd (items : List Item) :
    ∀ (a : Int) (tch : Bool),
      (items.foldl (fun st it =>
        match it.publishedParsed with
        | some p => if st.1 < p then (p, true) else st
        | none => st) (a, tch)).2 =
      (tch || items.any (fun it =>
        match it.publishedParsed with
        | some p => decide (a < p)
        | none => false)) := by
  induction items with
  | nil => intro a tch; simp
  | cons it rest ih =>
    intro a tch
    cases h : it.publishedParsed with
    | none => simp only [List.foldl_cons, List.any_cons, h]; rw [ih a tch]; simp
    | some p =>
      simp only [List.foldl_cons, List.any_cons, h]
      by_cases hlt : a < p
      · rw [if_pos hlt, ih p true]
        simp [hlt]
      · rw [if_neg hlt, ih a tch]
        simp [hlt]

/-- C7 counterexample: a document with no feed-level update time whose only
item carries a publish time (the epoch itself).  The claim's rule yields the
maximum item publish time, but the code's pointer-identity fallback treats
the document as a fetch failure because no publish time is strictly after
the epoch. -/
theorem freshness_claim_cex :
    freshness ⟨none, [⟨"a", "b", "c", some 0⟩]⟩ = .failure ∧
    specFreshness ⟨none, [⟨"a", "b", "c", some 0⟩]⟩ = .fresh 0 ∧
    (Item.mk "a" "b" "c" (some 0)).publishedParsed.isSome = true := by
  exact ⟨rfl, rfl, rfl⟩

/-- C7 amended: a feed-level update time is used when present; otherwise the
maximum item publish time is used provided some item was published strictly
after the Unix epoch; a document with neither a feed-level time nor an item
published strictly after the epoch is treated exactly like a fetch failure
(same store effect, no subscriber query, no delivery). -/
theorem freshness_fallback_amended (doc : FeedDoc) (now : Int) (st : Store)
    (feed : Feed) :
    (∀ t, doc.updatedParsed = some t → freshness doc = .fresh t) ∧
    (doc.updatedParsed = none →
      ((∃ it ∈ doc.items, ∃ p, it.publishedParsed = some p ∧ 0 < p) →
        freshness doc = .fresh (maxKey doc.items)) ∧
      ((∀ it ∈ doc.items, ∀ p, it.publishedParsed = some p → p ≤ 0) →
        freshness doc = .failure)) ∧
    (freshness doc = .failure →
      processFeed now st feed (.parsed doc) =
        processFeed now st feed .parseErr) := by
  have hsnd := fallback_foldl_snd doc.items 0 false
  have hfst := fallback_foldl_fst doc.items 0 false
  refine ⟨fun t ht => ?_, fun hnone => ⟨fun hpos => ?_, fun hneg => ?_⟩,
    fun hfail => ?_⟩
  · unfold freshness
    rw [ht]
  · unfold freshness fallbackUpdated
    rw [hnone]
    have hany : doc.items.any (fun it =>
        match it.publishedParsed with
        | some p => decide ((0 : Int) < p)
        | none => false) = true := by
      obtain ⟨it, hit, p, hp, hpp⟩ := hpos
      refine List.any_eq_true.mpr ⟨it, hit, ?_⟩
      rw [hp]
      exact decide_eq_true hpp
    rw [show ((0 : Int), false) = ((0, false) : Int × Bool) from rfl]
    simp only [hsnd, Bool.false_or] at *
    rw [hany]
    simp only [if_true]
    rw [hfst]
    rfl
  · unfold freshness fallbackUpdated
    rw [hnone]
    have hany : doc.items.any (fun it =>
        match it.publishedParsed with
        | some p => decide ((0 : Int) < p)
        | none => false) = false := by
      rw [List.any_eq_false]
      intro it hit
      cases hp : it.publishedParsed with
      | none => simp
      | some p =>
        have := hneg it hit p hp
        simp [hp, not_lt, this]
    simp only [hsnd, Bool.false_or] at *
    rw [hany]
    simp
  · have hred : processFeed now st feed (.parsed doc) =
        match freshness doc with
        | .failure =>
          ((feedError now st feed).1, (feedError now st feed).2, [])
        | .fresh t =>
          (Subs st feed.id t).foldl (subStep feed.id doc.items)
            (st, [], []) := rfl
    rw [hred, hfail]
    rfl

/-- Concrete instance of the amended freshness rule: with no feed-level
time and items published at 5 and 9, the fallback settles on 9. -/
theorem freshness_fallback_amended_witness :
    freshness ⟨none, [⟨"a", "b", "c", some 5⟩, ⟨"d", "e", "f", some 9⟩]⟩ =
      .fresh (maxKey [⟨"a", "b", "c", some 5⟩, ⟨"d", "e", "f", some 9⟩]) :=
  ((freshness_fallback_amended
      ⟨none, [⟨"a", "b", "c", some 5⟩, ⟨"d", "e", "f", some 9⟩]⟩ 0
      (Store.mk [] [] [] 1) ⟨1, "", ""⟩).2.1 rfl).1
    ⟨⟨"a", "b", "c", some 5⟩, by decide, 5, rfl, by decide⟩

/-- A list mapping to a singleton is a singleton. -/
theorem map_eq_singleton {α β : Type} (f : α → β) (l : List α) (b : β)
    (h : l.map f = [b]) : ∃ a, l = [a] ∧ f a = b := by
  cases l with
  | nil => simp at h
  | cons x xs =>
    cases xs with
    | nil =>
      simp only [List.map_cons, List.map_nil, List.cons.injEq, and_true] at h
      exact ⟨x, rfl, h⟩
    | cons y ys => simp at h

/-- The row rewrite of `updateSub` preserves every key-based predicate. -/
theorem updateSub_filter (st : Store) (c f t : Int) (pr : UpdateRow → Bool)
    (hpres : ∀ r : UpdateRow,
      pr (if r.chatID == c && r.feedID == f then
        { r with lastUpdate := t } else r) = pr r) :
    (updateSub st c f t).updates.filter pr =
      (st.updates.filter pr).map (fun r =>
        if r.chatID == c && r.feedID == f then
          { r with lastUpdate := t } else r) := by
  unfold updateSub
  rw [List.filter_map]
  congr 1
  exact List.filter_congr (fun r _ => hpres r)

/-- `UpdateSub` rewrites the `lastUpdate` of every row with the targeted
key. -/
theorem rowVals_updateSub_same (st : Store) (c f t : Int) :
    rowVals (updateSub st c f t) c f = (rowVals st c f).map (fun _ => t) := by
  unfold rowVals
  rw [updateSub_filter st c f t _ (fun r => by
    by_cases hpr : (r.chatID == c && r.feedID == f) = true
    · simp [hpr]
    · simp [hpr])]
  rw [List.map_map, List.map_map]
  refine List.map_congr_left (fun r hr => ?_)
  have hpr := (List.mem_filter.mp hr).2
  simp only [Function.comp, hpr, if_pos]

/-- `UpdateSub` leaves rows with any other key untouched. -/
theorem rowVals_updateSub_ne (st : Store) (c f t c' f' : Int)
    (h : ¬(c' = c ∧ f' = f)) :
    rowVals (updateSub st c f t) c' f' = rowVals st c' f' := by
  unfold rowVals
  rw [updateSub_filter st c f t _ (fun r => by
    by_cases hpr : (r.chatID == c && r.feedID == f) = true
    · simp [hpr]
    · simp [hpr])]
  rw [List.map_map]
  refine List.map_congr_left (fun r hr => ?_)
  have hpr2 := (List.mem_filter.mp hr).2
  by_cases hpr : (r.chatID == c && r.feedID == f) = true
  · exfalso
    rw [Bool.and_eq_true, beq_iff_eq, beq_iff_eq] at hpr hpr2
    exact h ⟨hpr2.1 ▸ hpr.1 ▸ rfl, hpr2.2 ▸ hpr.2 ▸ rfl⟩
  · simp only [Function.comp, hpr, Bool.false_eq_true, if_false]

/-- `UpdateSub` does not change the key of any row. -/
theorem pairsOf_updateSub (st : Store) (c f t : Int) :
    pairsOf (updateSub st c f t) = pairsOf st := by
  unfold pairsOf updateSub
  rw [List.map_map]
  refine List.map_congr_left (fun r _ => ?_)
  by_cases hpr : (r.chatID == c && r.feedID == f) = true
  · simp only [Function.comp, hpr, if_pos]
  · simp only [Function.comp, hpr, Bool.false_eq_true, if_false]

/-- When exactly one row matches the key, one write pair is recorded. -/
theorem subWrites_single (st : Store) (c f t v : Int)
    (h : rowVals st c f = [v]) : subWrites st c f t = [(v, t)] := by
  unfold rowVals at h
  unfold subWrites
  obtain ⟨r, hl, hv⟩ := map_eq_singleton _ _ _ h
  rw [hl, List.map_cons, List.map_nil, hv]

/-- Complete description of the delivery loop over a list of items for one
subscriber whose key matches exactly one row: the messages sent, the
sequence of write pairs (each pairing the previous stored value with the
item's publish time), the final stored value, and the frame conditions. -/
theorem deliverFold (c f : Int) (l : List Item) :
    ∀ (st : Store) (ms : List Message) (ws : List (Int × Int)) (v : Int),
      rowVals st c f = [v] →
      (l.foldl (deliverStep c f) (st, ms, ws)).2.2 =
          ws ++ (v :: l.map pubKey).zip (l.map pubKey) ∧
      (l.foldl (deliverStep c f) (st, ms, ws)).2.1 =
          ms ++ l.map (fun it => ⟨c, itemText it⟩) ∧
      rowVals (l.foldl (deliverStep c f) (st, ms, ws)).1 c f =
          [(l.map pubKey).getLastD v] ∧
      (∀ c' f' : Int, ¬(c' = c ∧ f' = f) →
        rowVals (l.foldl (deliverStep c f) (st, ms, ws)).1 c' f' =
          rowVals st c' f') ∧
      pairsOf (l.foldl (deliverStep c f) (st, ms, ws)).1 = pairsOf st := by
  induction l with
  | nil =>
    intro st ms ws v hrow
    exact ⟨by simp, by simp, hrow, fun c' f' _ => rfl, rfl⟩
  | cons it rest ih =>
    intro st ms ws v hrow
    have hw : subWrites st c f (pubKey it) = [(v, pubKey it)] :=
      subWrites_single st c f (pubKey it) v hrow
    have hrow' : rowVals (updateSub st c f (pubKey it)) c f = [pubKey it] := by
      rw [rowVals_updateSub_same, hrow]
      rfl
    have hstep : List.foldl (deliverStep c f) (st, ms, ws) (it :: rest) =
        List.foldl (deliverStep c f)
          (updateSub st c f (pubKey it), ms ++ [⟨c, itemText it⟩],
            ws ++ [(v, pubKey it)]) rest := by
      rw [List.foldl_cons]
      unfold deliverStep
      rw [hw]
    obtain ⟨ihw, ihm, ihv, ihf, ihp⟩ := ih (updateSub st c f (pubKey it))
      (ms ++ [⟨c, itemText it⟩]) (ws ++ [(v, pubKey it)]) (pubKey it) hrow'
    rw [hstep]
    refine ⟨?_, ?_, ?_, ?_, ?_⟩
    · rw [ihw]
      simp [List.zip]
    · rw [ihm]
      simp
    · rw [ihv, List.map_cons, List.getLastD_cons]
    · intro c' f' hne
      rw [ihf c' f' hne, rowVals_updateSub_ne st c f (pubKey it) c' f' hne]
    · rw [ihp, pairsOf_updateSub]

/-- Every selected item was published strictly after the subscriber's
progress marker. -/
theorem newItems_gt (items : List Item) (L : Int) :
    ∀ it ∈ newItems items L, L < pubKey it := by
  intro it hit
  obtain ⟨-, hcond⟩ := List.mem_filter.mp hit
  cases hp : it.publishedParsed with
  | none => rw [hp] at hcond; exact absurd hcond (by simp)
  | some p =>
    rw [hp] at hcond
    have := of_decide_eq_true hcond
    simpa [pubKey, hp] using this

/-- The selection keeps exactly the items with a publish time present and
strictly after the progress marker. -/
theorem newItems_mem_iff (items : List Item) (L : Int) (it : Item) :
    it ∈ newItems items L ↔
      it ∈ items ∧ ∃ p, it.publishedParsed = some p ∧ L < p := by
  unfold newItems
  rw [List.mem_filter]
  constructor
  · rintro ⟨hmem, hcond⟩
    refine ⟨hmem, ?_⟩
    cases hp : it.publishedParsed with
    | none => rw [hp] at hcond; exact absurd hcond (by simp)
    | some p =>
      rw [hp] at hcond
      exact ⟨p, rfl, of_decide_eq_true hcond⟩
  · rintro ⟨hmem, p, hp, hlt⟩
    refine ⟨hmem, ?_⟩
    rw [hp]
    exact decide_eq_true hlt

/-- The item comparator is total. -/
instance : IsTotal Item (fun a b => pubKey a ≤ pubKey b) :=
  ⟨fun a b => le_total (pubKey a) (pubKey b)⟩

/-- The item comparator is transitive. -/
instance : IsTrans Item (fun a b => pubKey a ≤ pubKey b) :=
  ⟨fun _ _ _ hab hbc => le_trans hab hbc⟩

/-- Sorting the new items is a permutation. -/
theorem sortNewItems_perm (l : List Item) : List.Perm (sortNewItems l) l :=
  List.perm_insertionSort _ l

/-- The publish times of the sorted items are non-decreasing. -/
theorem sortNewItems_pairwise (l : List Item) :
    ((sortNewItems l).map pubKey).Pairwise (· ≤ ·) := by
  have h := List.sorted_insertionSort (fun a b => pubKey a ≤ pubKey b) l
  exact h.map pubKey (fun a b hab => hab)

/-- The write sequence of one subscriber starts at its progress marker and
is adjacent-wise non-decreasing. -/
theorem chain_of_sorted (items : List Item) (L : Int) :
    List.Chain' (· ≤ ·)
      (L :: (sortNewItems (newItems items L)).map pubKey) := by
  rw [List.chain'_cons']
  refine ⟨?_, (sortNewItems_pairwise _).chain'⟩
  intro y hy
  have hyin : y ∈ (sortNewItems (newItems items L)).map pubKey :=
    List.mem_of_mem_head? hy
  obtain ⟨it, hit, rfl⟩ := List.mem_map.mp hyin
  have : it ∈ newItems items L := (sortNewItems_perm _).mem_iff.mp hit
  exact le_of_lt (newItems_gt items L it this)

/-- An adjacent-wise non-decreasing list zipped with its own tail yields
only non-decreasing pairs. -/
theorem zip_chain_le (ks : List Int) :
    ∀ v : Int, List.Chain' (· ≤ ·) (v :: ks) →
      ∀ p ∈ (v :: ks).zip ks, p.1 ≤ p.2 := by
  induction ks with
  | nil => intro v _ p hp; simp at hp
  | cons k rest ih =>
    intro v h p hp
    rw [List.zip_cons_cons] at hp
    rw [List.chain'_cons] at h
    rcases List.mem_cons.mp hp with hp | hp
    · rw [hp]
      exact h.1
    · exact ih k h.2 p hp

/-- Full description of `processSub` for a subscriber whose key matches
exactly one stored row. -/
theorem processSub_spec (feedID : Int) (items : List Item) (sub : Sub)
    (st : Store) (hrow : rowVals st sub.chatID feedID = [sub.lastUpdate]) :
    (processSub feedID items sub st).2.1 =
        (sortNewItems (newItems items sub.lastUpdate)).map
          (fun it => ⟨sub.chatID, itemText it⟩) ∧
    (processSub feedID items sub st).2.2 =
        (sub.lastUpdate ::
            (sortNewItems (newItems items sub.lastUpdate)).map pubKey).zip
          ((sortNewItems (newItems items sub.lastUpdate)).map pubKey) ∧
    rowVals (processSub feedID items sub st).1 sub.chatID feedID =
        [((sortNewItems (newItems items sub.lastUpdate)).map pubKey).getLastD
          sub.lastUpdate] ∧
    (∀ c' f' : Int, ¬(c' = sub.chatID ∧ f' = feedID) →
      rowVals (processSub feedID items sub st).1 c' f' =
        rowVals st c' f') ∧
    pairsOf (processSub feedID items sub st).1 = pairsOf st := by
  unfold processSub
  by_cases hemp : (newItems items sub.lastUpdate).isEmpty = true
  · have hnil : newItems items sub.lastUpdate = [] :=
      List.isEmpty_iff.mp hemp
    rw [hnil]
    have hsort : sortNewItems ([] : List Item) = [] := rfl
    rw [hsort]
    simp only [List.isEmpty_nil, if_true, List.map_nil, List.getLastD_nil]
    refine ⟨?_, ?_, ?_, ?_, ?_⟩ <;> first
      | exact hrow
      | (intro c' f' hne; trivial)
      | trivial
  · rw [Bool.not_eq_true] at hemp
    rw [hemp]
    simp only [Bool.false_eq_true, if_false]
    obtain ⟨hw, hm, hv, hf, hp⟩ := deliverFold sub.chatID feedID
      (sortNewItems (newItems items sub.lastUpdate)) st [] []
      sub.lastUpdate hrow
    exact ⟨by rw [hm]; simp, by rw [hw]; simp, hv, hf, hp⟩

/-- With pairwise-distinct keys, filtering for the key of a present row
yields exactly that row. -/
theorem filter_key_eq_single (l : List UpdateRow)
    (hnd : (l.map (fun r => (r.chatID, r.feedID))).Nodup) (r : UpdateRow)
    (hr : r ∈ l) :
    l.filter (fun x => x.chatID == r.chatID && x.feedID == r.feedID) =
      [r] := by
  induction l with
  | nil => cases hr
  | cons h rest ih =>
    rw [List.map_cons, List.nodup_cons] at hnd
    rcases List.mem_cons.mp hr with rfl | hr'
    · have hp : (r.chatID == r.chatID && r.feedID == r.feedID) = true := by
        simp
      have hrest : rest.filter
          (fun x => x.chatID == r.chatID && x.feedID == r.feedID) = [] := by
        rw [List.filter_eq_nil_iff]
        intro x hx hcontra
        rw [Bool.and_eq_true, beq_iff_eq, beq_iff_eq] at hcontra
        exact hnd.1 (List.mem_map.mpr
          ⟨x, hx, by rw [hcontra.1, hcontra.2]⟩)
      rw [List.filter_cons, hp]
      simp only [if_true, hrest]
    · have hk : (h.chatID == r.chatID && h.feedID == r.feedID) = false := by
        rw [Bool.and_eq_false_iff]
        by_contra hcontra
        rw [not_or, Bool.not_eq_false, Bool.not_eq_false, beq_iff_eq,
          beq_iff_eq] at hcontra
        exact hnd.1 (List.mem_map.mpr
          ⟨r, hr', by rw [hcontra.1, hcontra.2]⟩)
      rw [List.filter_cons, hk]
      simp only [Bool.false_eq_true, if_false]
      exact ih hnd.2 hr'

/-- Under pairwise-distinct keys, each subscriber returned by `Subs` has its
stored `lastUpdate` as the unique value of its row. -/
theorem subs_rowVals (st : Store) (f t : Int) (h : (pairsOf st).Nodup) :
    ∀ sub ∈ Subs st f t, rowVals st sub.chatID f = [sub.lastUpdate] := by
  intro sub hsub
  unfold Subs at hsub
  obtain ⟨r, hrf, hmk⟩ := List.mem_map.mp hsub
  obtain ⟨hr, hcond⟩ := List.mem_filter.mp hrf
  have hf : r.feedID = f := by
    rw [Bool.and_eq_true, beq_iff_eq] at hcond
    exact hcond.1
  have hsingle := filter_key_eq_single st.updates h r hr
  unfold rowVals
  rw [← hmk]
  simp only []
  rw [← hf, hsingle]
  rfl

/-- The subscribers of one feed returned by `Subs` have pairwise-distinct
chat ids when the subscription keys are pairwise distinct. -/
theorem chats_nodup_filter (f t : Int) (l : List UpdateRow)
    (hnd : (l.map (fun r => (r.chatID, r.feedID))).Nodup) :
    ((l.filter (fun r => r.feedID == f && r.lastUpdate < t)).map
      (fun r => r.chatID)).Nodup := by
  induction l with
  | nil => exact List.nodup_nil
  | cons r rest ih =>
    rw [List.map_cons, List.nodup_cons] at hnd
    rw [List.filter_cons]
    by_cases hq : (r.feedID == f && decide (r.lastUpdate < t)) = true
    · rw [hq]
      simp only [if_true, List.map_cons, List.nodup_cons]
      refine ⟨?_, ih hnd.2⟩
      intro hmem
      obtain ⟨x, hxf, hxc⟩ := List.mem_map.mp hmem
      obtain ⟨hx, hxq⟩ := List.mem_filter.mp hxf
      have hq2 := hq
      rw [Bool.and_eq_true, beq_iff_eq] at hq2
      have hrf : r.feedID = f := hq2.1
      rw [Bool.and_eq_true, beq_iff_eq] at hxq
      have hxfid : x.feedID = f := hxq.1
      exact hnd.1 (List.mem_map.mpr
        ⟨x, hx, by rw [hxc, hxfid, hrf]⟩)
    · rw [Bool.not_eq_true] at hq
      rw [hq]
      simp only [Bool.false_eq_true, if_false]
      exact ih hnd.2

/-- Chat-id distinctness transported to `Subs`. -/
theorem subs_chats_nodup (st : Store) (f t : Int)
    (h : (pairsOf st).Nodup) :
    ((Subs st f t).map (fun s => s.chatID)).Nodup := by
  unfold Subs
  rw [List.map_map]
  exact chats_nodup_filter f t st.updates h

/-- Dropping a feed preserves distinctness of subscription keys. -/
theorem pairsOf_dropFeed_nodup (st : Store) (id : Int)
    (h : (pairsOf st).Nodup) : (pairsOf (dropFeed st id)).Nodup := by
  unfold pairsOf dropFeed at *
  exact h.sublist ((List.filter_sublist _).map _)

/-- The store produced by `feedError` is the original one or the dropped
one. -/
theorem feedError_store (now : Int) (st : Store) (feed : Feed) :
    (feedError now st feed).1 = st ∨
      (feedError now st feed).1 = dropFeed st feed.id := by
  unfold feedError
  split
  · exact .inr rfl
  · exact .inl rfl

/-- Folding the delivery loops of all subscribers of one feed: every
recorded write is non-decreasing and the subscription keys are unchanged. -/
theorem subsFold (f : Int) (items : List Item) (subsL : List Sub) :
    ∀ (st : Store) (ms : List Message) (ws : List (Int × Int)),
      (∀ sub ∈ subsL, rowVals st sub.chatID f = [sub.lastUpdate]) →
      (subsL.map (fun s => s.chatID)).Nodup →
      (∀ p ∈ (subsL.foldl (subStep f items) (st, ms, ws)).2.2,
        p ∈ ws ∨ p.1 ≤ p.2) ∧
      pairsOf (subsL.foldl (subStep f items) (st, ms, ws)).1 =
        pairsOf st := by
  induction subsL with
  | nil => intro st ms ws _ _; exact ⟨fun p hp => .inl hp, rfl⟩
  | cons sub rest ih =>
    intro st ms ws hrows hnd
    rw [List.map_cons, List.nodup_cons] at hnd
    obtain ⟨hm0, hw0, hv0, hf0, hp0⟩ := processSub_spec f items sub st
      (hrows sub (List.mem_cons_self sub rest))
    rw [List.foldl_cons]
    have hstep : subStep f items (st, ms, ws) sub =
        ((processSub f items sub st).1,
          ms ++ (processSub f items sub st).2.1,
          ws ++ (processSub f items sub st).2.2) := rfl
    rw [hstep]
    have hrows' : ∀ s ∈ rest,
        rowVals (processSub f items sub st).1 s.chatID f =
          [s.lastUpdate] := by
      intro s hs
      have hne : ¬(s.chatID = sub.chatID ∧ f = f) := by
        rintro ⟨hc, -⟩
        exact hnd.1 (List.mem_map.mpr ⟨s, hs, hc⟩)
      rw [hf0 s.chatID f hne]
      exact hrows s (List.mem_cons_of_mem _ hs)
    obtain ⟨ihw, ihp⟩ := ih (processSub f items sub st).1
      (ms ++ (processSub f items sub st).2.1)
      (ws ++ (processSub f items sub st).2.2) hrows' hnd.2
    refine ⟨?_, by rw [ihp, hp0]⟩
    intro p hp
    rcases ihw p hp with hin | hgood
    · rcases List.mem_append.mp hin with h1 | h1
      · exact .inl h1
      · right
        rw [hw0] at h1
        exact zip_chain_le _ sub.lastUpdate
          (chain_of_sorted items sub.lastUpdate) p h1
    · exact .inr hgood

/-- Processing one feed: every recorded write is non-decreasing and the
subscription keys stay pairwise distinct. -/
theorem processFeed_writes (now : Int) (st : Store) (feed : Feed)
    (outcome : FetchOutcome) (h : (pairsOf st).Nodup) :
    (∀ p ∈ (processFeed now st feed outcome).2.2, p.1 ≤ p.2) ∧
      (pairsOf (processFeed now st feed outcome).1).Nodup := by
  have hfe : (pairsOf (feedError now st feed).1).Nodup := by
    rcases feedError_store now st feed with he | he
    · rw [he]; exact h
    · rw [he]; exact pairsOf_dropFeed_nodup st feed.id h
  cases outcome with
  | parseErr => exact ⟨fun p hp => absurd hp (List.not_mem_nil p), hfe⟩
  | parsed doc =>
    have hred : processFeed now st feed (.parsed doc) =
        match freshness doc with
        | .failure =>
          ((feedError now st feed).1, (feedError now st feed).2, [])
        | .fresh t =>
          (Subs st feed.id t).foldl (subStep feed.id doc.items)
            (st, [], []) := rfl
    rw [hred]
    cases hfr : freshness doc with
    | failure => exact ⟨fun p hp => absurd hp (List.not_mem_nil p), hfe⟩
    | fresh t =>
      obtain ⟨hw, hp⟩ := subsFold feed.id doc.items (Subs st feed.id t) st
        [] [] (subs_rowVals st feed.id t h) (subs_chats_nodup st feed.id t h)
      refine ⟨?_, by rw [hp]; exact h⟩
      intro p hmem
      exact (hw p hmem).resolve_left (List.not_mem_nil p)

/-- Folding all feeds of a pass. -/
theorem passFold (now : Int) (fetch : Feed → FetchOutcome)
    (feedsL : List Feed) :
    ∀ (st : Store) (ms : List Message) (ws : List (Int × Int)),
      (pairsOf st).Nodup →
      (∀ p ∈ (feedsL.foldl (feedStep now fetch) (st, ms, ws)).2.2,
        p ∈ ws ∨ p.1 ≤ p.2) ∧
      (pairsOf (feedsL.foldl (feedStep now fetch) (st, ms, ws)).1).Nodup := by
  induction feedsL with
  | nil => intro st ms ws h; exact ⟨fun p hp => .inl hp, h⟩
  | cons feed rest ih =>
    intro st ms ws h
    rw [List.foldl_cons]
    have hstep : feedStep now fetch (st, ms, ws) feed =
        ((processFeed now st feed (fetch feed)).1,
          ms ++ (processFeed now st feed (fetch feed)).2.1,
          ws ++ (processFeed now st feed (fetch feed)).2.2) := rfl
    rw [hstep]
    obtain ⟨hw, hnd⟩ := processFeed_writes now st feed (fetch feed) h
    obtain ⟨ihw, ihnd⟩ := ih _ _ _ hnd
    refine ⟨?_, ihnd⟩
    intro p hp
    rcases ihw p hp with hin | hgood
    · rcases List.mem_append.mp hin with h1 | h1
      · exact .inl h1
      · exact .inr (hw p h1)
    · exact .inr hgood

/-- One pass: every recorded write is non-decreasing and key distinctness is
preserved. -/
theorem updatePass_writes (now : Int) (fetch : Feed → FetchOutcome)
    (st : Store) (h : (pairsOf st).Nodup) :
    (∀ p ∈ (updatePass now fetch st).2.2, p.1 ≤ p.2) ∧
      (pairsOf (updatePass now fetch st).1).Nodup := by
  obtain ⟨hw, hnd⟩ := passFold now fetch (Feeds st) st [] [] h
  exact ⟨fun p hp => (hw p hp).resolve_left (List.not_mem_nil p), hnd⟩

/-- Folding a sequence of passes keeps all recorded writes non-decreasing
and preserves key distinctness. -/
theorem runPassesFold (ps : List (Int × (Feed → FetchOutcome))) :
    ∀ (st : Store) (ms : List Message) (ws : List (Int × Int)),
      (pairsOf st).Nodup →
      (∀ p ∈ (ps.foldl (fun acc q =>
          let r := updatePass q.1 q.2 acc.1
          (r.1, acc.2.1 ++ r.2.1, acc.2.2 ++ r.2.2)) (st, ms, ws)).2.2,
        p ∈ ws ∨ p.1 ≤ p.2) ∧
      (pairsOf (ps.foldl (fun acc q =>
          let r := updatePass q.1 q.2 acc.1
          (r.1, acc.2.1 ++ r.2.1, acc.2.2 ++ r.2.2)) (st, ms, ws)).1).Nodup := by
  induction ps with
  | nil => intro st ms ws h; exact ⟨fun p hp => .inl hp, h⟩
  | cons q rest ih =>
    intro st ms ws h
    obtain ⟨hw, hnd⟩ := updatePass_writes q.1 q.2 st h
    obtain ⟨ihw, ihnd⟩ := ih ((updatePass q.1 q.2 st).1)
      (ms ++ (updatePass q.1 q.2 st).2.1)
      (ws ++ (updatePass q.1 q.2 st).2.2) hnd
    refine ⟨?_, ihnd⟩
    intro p hp
    rcases ihw p hp with hin | hgood
    · rcases List.mem_append.mp hin with h1 | h1
      · exact .inl h1
      · exact .inr (hw p h1)
    · exact .inr hgood

/-- C5: across any sequence of update passes over a store with
pairwise-distinct subscription keys, every `UpdateSub` performed by the
engine writes a value at least as large as the value it overwrites — the
stored `lastUpdate` of every subscription is monotonically non-decreasing.
Each pair of the pass's write trace couples the previous stored value with
the newly written one at the moment of the write. -/
theorem lastUpdate_monotone (ps : List (Int × (Feed → FetchOutcome)))
    (st : Store) (h : (pairsOf st).Nodup) :
    ∀ p ∈ (runPasses ps st).2.2, p.1 ≤ p.2 := by
  intro p hp
  have hres := (runPassesFold ps st [] [] h).1 p hp
  exact hres.resolve_left (List.not_mem_nil p)

/-- Concrete two-item run: the first recorded write advances the marker from
10 to 20 and is indeed non-decreasing. -/
theorem lastUpdate_monotone_witness :
    ((10 : Int), (20 : Int)).1 ≤ ((10 : Int), (20 : Int)).2 :=
  lastUpdate_monotone
    [(100, fun _ => .parsed ⟨some 40,
      [⟨"a", "b", "c", some 20⟩, ⟨"d", "e", "f", some 30⟩]⟩)]
    (Store.mk [⟨1, "//example.org/rss", "Example", 7⟩] [⟨5, 1, 7, 10⟩] [] 2)
    (by decide) (10, 20) (by decide)

/-- C3: for every subscriber processed in a pass (whose key matches exactly
one stored row), the delivered items are exactly those with a publish time
present and strictly after the subscriber's `lastUpdate`; they go out one
message per item with publish times in non-decreasing order whatever the
document's native order; each delivery writes that item's publish time as
the new `lastUpdate` (the write trace pairs the previous value with the
item's time), and after the loop the stored value is the last delivered
item's publish time. -/
theorem processSub_delivery (feedID : Int) (items : List Item) (sub : Sub)
    (st : Store) (hrow : rowVals st sub.chatID feedID = [sub.lastUpdate]) :
    (∀ it : Item, it ∈ newItems items sub.lastUpdate ↔
      (it ∈ items ∧ ∃ p, it.publishedParsed = some p ∧ sub.lastUpdate < p)) ∧
    List.Perm (sortNewItems (newItems items sub.lastUpdate))
      (newItems items sub.lastUpdate) ∧
    ((sortNewItems (newItems items sub.lastUpdate)).map pubKey).Pairwise
      (· ≤ ·) ∧
    (processSub feedID items sub st).2.1 =
      (sortNewItems (newItems items sub.lastUpdate)).map
        (fun it => ⟨sub.chatID, itemText it⟩) ∧
    (processSub feedID items sub st).2.2 =
      (sub.lastUpdate ::
          (sortNewItems (newItems items sub.lastUpdate)).map pubKey).zip
        ((sortNewItems (newItems items sub.lastUpdate)).map pubKey) ∧
    rowVals (processSub feedID items sub st).1 sub.chatID feedID =
      [((sortNewItems (newItems items sub.lastUpdate)).map pubKey).getLastD
        sub.lastUpdate] := by
  obtain ⟨hm, hw, hv, -, -⟩ := processSub_spec feedID items sub st hrow
  exact ⟨fun it => newItems_mem_iff items sub.lastUpdate it,
    sortNewItems_perm _, sortNewItems_pairwise _, hm, hw, hv⟩

/-- Concrete instance with publish times 1 < 2 < 3 scrambled in the
document: after the loop the stored `lastUpdate` is 3. -/
theorem processSub_delivery_witness :
    rowVals (processSub 1
        [⟨"B", "", "", some 2⟩, ⟨"A", "", "", some 1⟩, ⟨"C", "", "", some 3⟩]
        (Sub.mk 5 0)
        (Store.mk [⟨1, "//example.org/rss", "Example", 7⟩] [⟨5, 1, 7, 0⟩]
          [] 2)).1 5 1 = [3] := by
  have h := (processSub_delivery 1
    [⟨"B", "", "", some 2⟩, ⟨"A", "", "", some 1⟩, ⟨"C", "", "", some 3⟩]
    (Sub.mk 5 0)
    (Store.mk [⟨1, "//example.org/rss", "Example", 7⟩] [⟨5, 1, 7, 0⟩] [] 2)
    (by decide)).2.2.2.2.2
  exact h.trans (by decide)

end Rss
